import Mathlib

/-!
Verification of the gevopy evolutionary-computation engine specification.

The repository ships its documentation (README.md, README.ipynb, the
examples notebook and packaging metadata); the Python modules themselves
(genetics, fitness, algorithms, experiments, tools) are not part of the
archive, so the data model and operations below are modelled from the
specification's own description of those modules, cross-checked against
the concrete inputs and outputs recorded in the source notebooks
(src/README.ipynb, src/README.md, src/examples/database_evolution.ipynb).
-/

set_option maxHeartbeats 1000000
/-- Error taxonomy of the engine, from the spec's error-handling design:
configuration errors, chromosome incompatibilities, out-of-range loci,
queries on unscored populations. -/
inductive EvoError where
  | invalidConfiguration
  | incompatibleChromosome
  | outOfRange
  | emptyPopulation
deriving DecidableEq, Repr

/-- Modelled from the spec: a chromosome is an ordered, fixed-length
sequence of symbols from a small alphabet (binary loci in the README
examples, shown there as `Haploid([1, 0, ...], dtype=uint8)`) together
with a ploidy tag (single-strand vs. paired-strand). -/
structure Chromosome where
  ploidy : Nat
  loci : List Nat
deriving DecidableEq, Repr

/-- Modelled from the spec: `count(symbol)` returns the frequency of a
given symbol in the chromosome, a pure query. -/
def Chromosome.count (c : Chromosome) (sym : Nat) : Nat :=
  c.loci.count sym

/-- Modelled from the spec: the mutation operator flips each locus
independently; the random source is modelled as the per-locus flip
decision `flip : Nat → Bool`.  A binary locus `x` flips to `1 - x`.
Mutation rewrites symbols in place and never changes length or ploidy. -/
def mutate (flip : Nat → Bool) (c : Chromosome) : Chromosome :=
  { c with
    loci := ((List.range c.loci.length).zip c.loci).map
      (fun ix => if flip ix.1 then 1 - ix.2 else ix.2) }

/-- Number of cut points at or before locus `i`; its parity decides which
parent contributes locus `i` of the first offspring. -/
def segIdx (points : List Nat) (i : Nat) : Nat :=
  (points.filter (fun p => decide (p ≤ i))).length

/-- Modelled from the spec: `crossover(other, points)` returns two new
chromosomes formed by alternating segments between the two inputs at the
given cut points, and fails with `IncompatibleChromosome` if lengths or
ploidy differ. -/
def crossover (c d : Chromosome) (points : List Nat) :
    Except EvoError (Chromosome × Chromosome) :=
  if c.ploidy = d.ploidy ∧ c.loci.length = d.loci.length then
    .ok
      ({ c with
          loci := (List.range c.loci.length).map
            (fun i => if segIdx points i % 2 = 0 then c.loci.getD i 0 else d.loci.getD i 0) },
       { d with
          loci := (List.range c.loci.length).map
            (fun i => if segIdx points i % 2 = 0 then d.loci.getD i 0 else c.loci.getD i 0) })
  else .error .incompatibleChromosome

/-- Modelled from the spec: the Genotype/Phenotype record, the unit of
evolution.  `id` is a globally unique identifier (UUIDs in the source,
numbers here), `experiment` a nullable back-reference, `created` an
immutable creation timestamp, `parents` the ordered ids of the ancestors
(empty for founders), `generation` an integer at least 1, `score` an
optional fitness value and `chromosomes` the genetic payload. -/
structure Phenotype where
  id : Nat
  experiment : Option Nat
  created : Nat
  parents : List Nat
  generation : Nat
  score : Option Int
  chromosomes : List Chromosome
deriving DecidableEq, Repr

/-- Modelled from the spec: a founder record enters the population with
`generation = 1`, an empty `parents` list and no score. -/
def mkFounder (id created : Nat) (chs : List Chromosome) : Phenotype :=
  { id := id, experiment := none, created := created, parents := [],
    generation := 1, score := none, chromosomes := chs }

/-- Modelled from the spec: offspring minted by the algorithm pipeline
carry the breeding pair's ids as `parents` and a `generation` one more
than the maximum of the pair's generations; a fresh id and timestamp, and
no score yet. -/
def mkOffspring (a b : Phenotype) (id created : Nat) (chs : List Chromosome) : Phenotype :=
  { id := id, experiment := a.experiment, created := created,
    parents := [a.id, b.id], generation := 1 + max a.generation b.generation,
    score := none, chromosomes := chs }

/-- Populations the algorithm pipeline can build: founders with fresh
ids, and offspring of two existing members with fresh ids.  This is the
inductive closure of the two record constructors the pipeline uses. -/
inductive Pedigree : List Phenotype → Prop
  | nil : Pedigree []
  | founder {ps : List Phenotype} (id created : Nat) (chs : List Chromosome) :
      Pedigree ps → (∀ q ∈ ps, q.id ≠ id) →
      Pedigree (mkFounder id created chs :: ps)
  | offspring {ps : List Phenotype} {a b : Phenotype} (id created : Nat)
      (chs : List Chromosome) :
      Pedigree ps → a ∈ ps → b ∈ ps → (∀ q ∈ ps, q.id ≠ id) →
      Pedigree (mkOffspring a b id created chs :: ps)

/-- `q` is a parent of `p` inside population `ps`: both are members and
`q`'s id occurs in `p`'s parents list. -/
def ParentOf (ps : List Phenotype) (q p : Phenotype) : Prop :=
  p ∈ ps ∧ q ∈ ps ∧ q.id ∈ p.parents

/-- Genetic content of a phenotype: the chromosome payload, used as the
fitness cache key (the spec requires the key be content-derived, not the
identifier). -/
abbrev Content := List Chromosome

/-- State threaded through a fitness evaluation: the content-keyed score
cache and the log of user scoring-function invocations. -/
structure EvalState where
  cache : List (Content × Int)
  calls : List Content
deriving DecidableEq, Repr

/-- Association-list lookup for the content-keyed cache. -/
def lookupCache (cache : List (Content × Int)) (k : Content) : Option Int :=
  match cache with
  | [] => none
  | (k2, v) :: rest => if k2 = k then some v else lookupCache rest k

/-- Modelled from the spec: scoring one phenotype.  A member already
carrying a score is left untouched; with the cache enabled a content hit
short-circuits to the cached value; otherwise the user scoring function
is invoked (logged in `calls`) and, when caching, memoized. -/
def evalOne (scoreFn : Content → Int) (useCache : Bool) (st : EvalState) (p : Phenotype) :
    Phenotype × EvalState :=
  match p.score with
  | some _ => (p, st)
  | none =>
    if useCache then
      match lookupCache st.cache p.chromosomes with
      | some v => ({ p with score := some v }, st)
      | none =>
        ({ p with score := some (scoreFn p.chromosomes) },
         { cache := (p.chromosomes, scoreFn p.chromosomes) :: st.cache,
           calls := st.calls ++ [p.chromosomes] })
    else
      ({ p with score := some (scoreFn p.chromosomes) },
       { st with calls := st.calls ++ [p.chromosomes] })

/-- Modelled from the spec: `evaluate(population)` scores every member
lacking a score and leaves already-scored members untouched, threading
the cache/call state. -/
def evaluate (scoreFn : Content → Int) (useCache : Bool) :
    List Phenotype → EvalState → List Phenotype × EvalState
  | [], st => ([], st)
  | p :: ps, st =>
    let r1 := evalOne scoreFn useCache st p
    let r2 := evaluate scoreFn useCache ps r1.2
    (r1.1 :: r2.1, r2.2)

/-- Modelled from the spec: `reset_score()` clears scores on the current
population and nothing else. -/
def reset_score (pop : List Phenotype) : List Phenotype :=
  pop.map (fun p => { p with score := none })

/-- Accumulator for `best`: keep the better-scored of the running best
and the next member (members without a score are skipped). -/
def betterScore (q : Option Phenotype) (p : Phenotype) : Option Phenotype :=
  match p.score, q with
  | none, a => a
  | some _, none => some p
  | some s, some q2 => if q2.score.getD 0 < s then some p else some q2

/-- Modelled from the spec: `best()` returns the highest-scored phenotype
currently held and fails with `EmptyPopulation` if none is scored yet. -/
def best (pop : List Phenotype) : Except EvoError Phenotype :=
  match pop.foldl betterScore none with
  | none => .error .emptyPopulation
  | some p => .ok p

/-- Invariant kept by a cached evaluation pass: no content was sent to
the scoring function twice, and every content already charged is held by
the cache (so it can never be charged again). -/
def CacheInv (st : EvalState) : Prop :=
  st.calls.Nodup ∧ ∀ k ∈ st.calls, (lookupCache st.cache k).isSome

/-- Maximum score currently present in the population (`none` when no
member is scored). -/
def bestScore (pop : List Phenotype) : Option Int :=
  pop.foldl
    (fun acc p =>
      match p.score, acc with
      | none, a => a
      | some s, none => some s
      | some s, some m => some (max m s))
    none

/-- The best score in the population meets the `max_score` bound. -/
def meets (pop : List Phenotype) (maxScore : Int) : Bool :=
  match bestScore pop with
  | some s => decide (maxScore ≤ s)
  | none => false

/-- The population visible after generation `i` of a run: the initial
population evaluated, then alternating next-generation production and
evaluation, exactly as the run loop visits them. -/
def genAt (evalF next : List Phenotype → List Phenotype) (pop : List Phenotype) :
    Nat → List Phenotype
  | 0 => evalF pop
  | i + 1 => evalF (next (genAt evalF next pop i))

/-- Modelled from the spec: the generation loop of `run`.  Each cycle
evaluates the unscored members, checks termination (generation counter
reached `max_generation`, here the remaining fuel, or best score at least
`max_score`) and, when not terminal, applies the algorithm to produce the
next generation and increments the counter.  Returns the number of
generation advances executed by this call together with the final
population. -/
def runLoop (evalF next : List Phenotype → List Phenotype) (maxScore : Int) :
    Nat → List Phenotype → Nat × List Phenotype
  | 0, pop => (0, evalF pop)
  | g + 1, pop =>
    let ep := evalF pop
    if meets ep maxScore then (0, ep)
    else
      let r := runLoop evalF next maxScore g (next ep)
      (r.1 + 1, r.2)

/-- Run report, as printed by the source notebooks: executed generations
and the best score reached. -/
structure Report where
  generations : Nat
  bestFinal : Option Int
deriving DecidableEq, Repr

/-- Session state: the live population owned by the experiment session.
It persists across `run` calls. -/
structure Session where
  pop : List Phenotype
deriving DecidableEq, Repr

/-- Modelled from the spec and the run logs in src/README.md and
src/examples/database_evolution.ipynb: each `run` call starts a fresh
execution whose generation counter begins at zero (the logs show
`[gen:0]: Start of evolutionary experiment execution` at the start of
every call), drives the loop on the session's current population, and
returns the statistics report together with the updated session. -/
def runSession (evalF next : List Phenotype → List Phenotype) (maxGen : Nat)
    (maxScore : Int) (s : Session) : Report × Session :=
  let r := runLoop evalF next maxScore maxGen s.pop
  (⟨r.1, bestScore r.2⟩, ⟨r.2⟩)

/-- Largest phenotype generation number present in a population. -/
def maxGenOf (pop : List Phenotype) : Nat :=
  (pop.map (·.generation)).foldl max 0

/-- Modelled from the spec: the Standard algorithm template's scalar
configuration.  Probabilities are exact rationals here (the source uses
floats); `indpb` is the crossover per-locus probability, `mutpb` the
mutation probability and `survival_rate` the fraction of the population
carried forward unchanged. -/
structure StandardConfig where
  indpb : Rat
  mutpb : Rat
  survival_rate : Rat
deriving DecidableEq, Repr

/-- Modelled from the spec: algorithm construction validates its
configuration immediately; probabilities must lie in the closed unit
interval and the survival rate in the half-open unit interval, otherwise
construction fails with `InvalidConfiguration`. -/
def mkStandard (indpb mutpb survival_rate : Rat) : Except EvoError StandardConfig :=
  if 0 ≤ indpb ∧ indpb ≤ 1 ∧ 0 ≤ mutpb ∧ mutpb ≤ 1 ∧
      0 < survival_rate ∧ survival_rate ≤ 1 then
    .ok ⟨indpb, mutpb, survival_rate⟩
  else .error .invalidConfiguration

/-- Default survival rate of the Standard template, as shown by the
object printed in src/README.ipynb when `MyAlgorithm()` is constructed
without a `survival_rate` argument: `survival_rate=0.4`. -/
def standardSurvivalRateDefault : Rat := 2 / 5

/-- Modelled from the spec and src/README.ipynb: constructing a Standard
algorithm with an optional `survival_rate` argument; when the argument is
omitted the template's default is used. -/
def mkStandardOpt (indpb mutpb : Rat) (survival_rate : Option Rat) :
    Except EvoError StandardConfig :=
  mkStandard indpb mutpb (survival_rate.getD standardSurvivalRateDefault)

/-- The three execution schedulers of the fitness evaluator. -/
inductive Scheduler where
  | synchronous
  | threads
  | processes
deriving DecidableEq, Repr

/-- Modelled from the source documentation (src/README.ipynb): the only
accepted values for the fitness `scheduler` option are `synchronous`,
`threads` and `processes` (Dask scheduler names, default `threads`);
every other string is rejected. -/
def parseScheduler (s : String) : Option Scheduler :=
  if s = "synchronous" then some .synchronous
  else if s = "threads" then some .threads
  else if s = "processes" then some .processes
  else none

/-- Concrete founder used in the sample pedigree (chromosome taken from
the spec's crossover scenario). -/
def founder1 : Phenotype := mkFounder 1 0 [⟨1, [1, 0, 1, 1]⟩]

/-- Second concrete founder of the sample pedigree. -/
def founder2 : Phenotype := mkFounder 2 0 [⟨1, [0, 1, 0, 0]⟩]

/-- Offspring of the two sample founders. -/
def child12 : Phenotype := mkOffspring founder1 founder2 3 1 [⟨1, [1, 0, 0, 0]⟩]

/-- A three-member population produced by the pipeline constructors. -/
def samplePedigree : List Phenotype := [child12, founder2, founder1]

/-- A one-member population carrying a score. -/
def sampleScoredPop : List Phenotype := [{ founder1 with score := some 3 }]

/-- Evaluation step for the concrete run examples: an unscored member is
scored with its own generation number (so each new generation strictly
improves the best score). -/
def scoreByGeneration (pop : List Phenotype) : List Phenotype :=
  pop.map (fun p => if p.score.isSome then p else { p with score := some (p.generation : Int) })

/-- Next-generation step for the concrete run examples: every member is
replaced by an offspring of itself with itself. -/
def selfBreed (pop : List Phenotype) : List Phenotype :=
  pop.map (fun p => mkOffspring p p (p.id + 1) (p.created + 1) p.chromosomes)

/-- A session holding a single founder, used by the run examples. -/
def sampleSession : Session := ⟨[mkFounder 0 0 []]⟩

theorem pedigree_ids_nodup {ps : List Phenotype} (h : Pedigree ps) :
    (ps.map (·.id)).Nodup := by
  induction h with
  | nil => simp
  | founder id created chs _ hfresh ih =>
      simp only [List.map_cons, List.nodup_cons]
      refine ⟨?_, ih⟩
      simp only [List.mem_map, not_exists]
      rintro q ⟨hq, hqid⟩
      exact hfresh q hq (by simpa [mkFounder] using hqid)
  | offspring id created chs _ ha hb hfresh ih =>
      simp only [List.map_cons, List.nodup_cons]
      refine ⟨?_, ih⟩
      simp only [List.mem_map, not_exists]
      rintro q ⟨hq, hqid⟩
      exact hfresh q hq (by simpa [mkOffspring] using hqid)

theorem pedigree_parents_closed {ps : List Phenotype} (h : Pedigree ps) :
    ∀ p ∈ ps, ∀ pid ∈ p.parents, ∃ q ∈ ps, q.id = pid ∧ q.generation < p.generation := by
  induction h with
  | nil => intro p hp; simp at hp
  | founder id created chs _ hfresh ih =>
      intro p hp pid hpid
      rcases List.mem_cons.mp hp with rfl | hp
      · simp [mkFounder] at hpid
      · rcases ih p hp pid hpid with ⟨q, hq, hqe, hqlt⟩
        exact ⟨q, List.mem_cons_of_mem _ hq, hqe, hqlt⟩
  | offspring id created chs _ ha hb hfresh ih =>
      intro p hp pid hpid
      rcases List.mem_cons.mp hp with rfl | hp
      · simp only [mkOffspring, List.mem_cons, List.mem_singleton] at hpid
        rcases hpid with rfl | rfl | hfalse
        · refine ⟨_, List.mem_cons_of_mem _ ha, rfl, ?_⟩
          simp only [mkOffspring]
          rw [Nat.add_comm]
          exact Nat.lt_succ_of_le (Nat.le_max_left _ _)
        · refine ⟨_, List.mem_cons_of_mem _ hb, rfl, ?_⟩
          simp only [mkOffspring]
          rw [Nat.add_comm]
          exact Nat.lt_succ_of_le (Nat.le_max_right _ _)
        · simp at hfalse
      · rcases ih p hp pid hpid with ⟨q, hq, hqe, hqlt⟩
        exact ⟨q, List.mem_cons_of_mem _ hq, hqe, hqlt⟩

theorem pedigree_member_id_inj {ps : List Phenotype} (h : Pedigree ps) :
    ∀ p ∈ ps, ∀ q ∈ ps, p.id = q.id → p = q := by
  have hnodup := pedigree_ids_nodup h
  intro p hp q hq he
  exact List.inj_on_of_nodup_map hnodup hp hq he

theorem pedigree_parent_gen_lt {ps : List Phenotype} (h : Pedigree ps) :
    ∀ p ∈ ps, ∀ q ∈ ps, q.id ∈ p.parents → q.generation < p.generation := by
  intro p hp q hq hqid
  rcases pedigree_parents_closed h p hp q.id hqid with ⟨r, hr, hre, hrlt⟩
  have : r = q := pedigree_member_id_inj h r hr q hq hre
  simpa [this] using hrlt

theorem pedigree_parentOf_gen_lt {ps : List Phenotype} (h : Pedigree ps) :
    ∀ p q : Phenotype, ParentOf ps q p → q.generation < p.generation := by
  rintro p q ⟨hp, hq, hqid⟩
  exact pedigree_parent_gen_lt h p hp q hq hqid

theorem pedigree_transGen_gen_lt {ps : List Phenotype} (h : Pedigree ps)
    {p q : Phenotype} (hpq : Relation.TransGen (ParentOf ps) q p) :
    q.generation < p.generation := by
  induction hpq with
  | single hstep => exact pedigree_parentOf_gen_lt h _ _ hstep
  | tail _ hstep ih => exact lt_trans ih (pedigree_parentOf_gen_lt h _ _ hstep)

theorem pedigree_acyclic {ps : List Phenotype} (h : Pedigree ps) :
    ∀ p : Phenotype, ¬ Relation.TransGen (ParentOf ps) p p := by
  intro p hcycle
  exact lt_irrefl _ (pedigree_transGen_gen_lt h hcycle)

theorem pedigree_generation_formula {ps : List Phenotype} (h : Pedigree ps) :
    ∀ p ∈ ps, (p.parents = [] ∧ p.generation = 1) ∨
      ∃ a ∈ ps, ∃ b ∈ ps, p.parents = [a.id, b.id] ∧
        p.generation = 1 + max a.generation b.generation := by
  induction h with
  | nil => intro p hp; simp at hp
  | founder id created chs _ hfresh ih =>
      intro p hp
      rcases List.mem_cons.mp hp with rfl | hp
      · exact Or.inl ⟨rfl, rfl⟩
      · rcases ih p hp with hcase | ⟨a, ha, b, hb, he⟩
        · exact Or.inl hcase
        · exact Or.inr ⟨a, List.mem_cons_of_mem _ ha, b, List.mem_cons_of_mem _ hb, he⟩
  | offspring id created chs _ ha hb hfresh ih =>
      intro p hp
      rcases List.mem_cons.mp hp with rfl | hp
      · exact Or.inr ⟨_, List.mem_cons_of_mem _ ha, _, List.mem_cons_of_mem _ hb, rfl, rfl⟩
      · rcases ih p hp with hcase | ⟨a2, ha2, b2, hb2, he⟩
        · exact Or.inl hcase
        · exact Or.inr ⟨a2, List.mem_cons_of_mem _ ha2, b2, List.mem_cons_of_mem _ hb2, he⟩

theorem lookupCache_cons_isSome {cache : List (Content × Int)} {k k2 : Content} {v : Int}
    (h : (lookupCache cache k).isSome) :
    (lookupCache ((k2, v) :: cache) k).isSome := by
  by_cases he : k2 = k <;> simp [lookupCache, he, h]

theorem evalOne_cacheInv (scoreFn : Content → Int) (st : EvalState) (p : Phenotype)
    (h : CacheInv st) : CacheInv (evalOne scoreFn true st p).2 := by
  obtain ⟨hnodup, hcached⟩ := h
  unfold evalOne
  match hs : p.score with
  | some s => exact ⟨hnodup, hcached⟩
  | none =>
    simp only [if_pos rfl]
    match hl : lookupCache st.cache p.chromosomes with
    | some v => exact ⟨hnodup, hcached⟩
    | none =>
      constructor
      · have hnotin : p.chromosomes ∉ st.calls := by
          intro hmem
          have := hcached _ hmem
          rw [hl] at this
          simp at this
        simp [List.nodup_append, hnodup, hnotin]
      · intro k hk
        have hk2 : k ∈ st.calls ++ [p.chromosomes] := hk
        rw [List.mem_append, List.mem_singleton] at hk2
        rcases hk2 with hk2 | rfl
        · exact lookupCache_cons_isSome (hcached _ hk2)
        · simp [lookupCache]

theorem evalOne_calls_prefix (scoreFn : Content → Int) (useCache : Bool)
    (st : EvalState) (p : Phenotype) :
    ∃ l, (evalOne scoreFn useCache st p).2.calls = st.calls ++ l := by
  unfold evalOne
  match p.score with
  | some s => exact ⟨[], by simp⟩
  | none =>
    match useCache with
    | false => exact ⟨[p.chromosomes], by simp⟩
    | true =>
      simp only [if_pos rfl]
      match lookupCache st.cache p.chromosomes with
      | some v => exact ⟨[], by simp⟩
      | none => exact ⟨[p.chromosomes], by simp⟩

theorem evaluate_cacheInv (scoreFn : Content → Int) (pop : List Phenotype)
    (st : EvalState) (h : CacheInv st) :
    CacheInv (evaluate scoreFn true pop st).2 := by
  induction pop generalizing st with
  | nil => exact h
  | cons p ps ih => exact ih _ (evalOne_cacheInv scoreFn st p h)

theorem evalOne_score_isSome (scoreFn : Content → Int) (useCache : Bool)
    (st : EvalState) (p : Phenotype) :
    (evalOne scoreFn useCache st p).1.score.isSome := by
  unfold evalOne
  match hs : p.score with
  | some s => simpa using congrArg Option.isSome hs
  | none =>
    match useCache with
    | false => simp
    | true =>
      simp only [if_pos rfl]
      match lookupCache st.cache p.chromosomes with
      | some v => simp
      | none => simp

theorem evaluate_all_scored (scoreFn : Content → Int) (useCache : Bool)
    (pop : List Phenotype) (st : EvalState) :
    ∀ q ∈ (evaluate scoreFn useCache pop st).1, q.score.isSome := by
  induction pop generalizing st with
  | nil => intro q hq; simp [evaluate] at hq
  | cons p ps ih =>
    intro q hq
    simp only [evaluate, List.mem_cons] at hq
    rcases hq with rfl | hq
    · exact evalOne_score_isSome scoreFn useCache st p
    · exact ih _ q hq

theorem evalOne_scored_id (scoreFn : Content → Int) (useCache : Bool)
    (st : EvalState) (p : Phenotype) (h : p.score.isSome) :
    evalOne scoreFn useCache st p = (p, st) := by
  unfold evalOne
  match hs : p.score with
  | some s => rfl
  | none => rw [hs] at h; simp at h

theorem evaluate_scored_id (scoreFn : Content → Int) (useCache : Bool)
    (pop : List Phenotype) (st : EvalState) (h : ∀ p ∈ pop, p.score.isSome) :
    evaluate scoreFn useCache pop st = (pop, st) := by
  induction pop generalizing st with
  | nil => rfl
  | cons p ps ih =>
    have h1 : evalOne scoreFn useCache st p = (p, st) :=
      evalOne_scored_id scoreFn useCache st p (h p (List.mem_cons_self p ps))
    simp only [evaluate, h1]
    have h2 := ih st (fun q hq => h q (List.mem_cons_of_mem p hq))
    simp [h2]

theorem evaluate_ne_nil (scoreFn : Content → Int) (useCache : Bool)
    (pop : List Phenotype) (st : EvalState) (h : pop ≠ []) :
    (evaluate scoreFn useCache pop st).1 ≠ [] := by
  match pop with
  | [] => exact absurd rfl h
  | p :: ps => simp [evaluate]

theorem betterScore_score_none (q : Option Phenotype) (p : Phenotype)
    (h : p.score = none) : betterScore q p = q := by
  unfold betterScore
  rw [h]

theorem foldl_betterScore_reset (pop : List Phenotype) :
    ∀ acc, (reset_score pop).foldl betterScore acc = acc := by
  induction pop with
  | nil => intro acc; rfl
  | cons p ps ih =>
    intro acc
    simp only [reset_score, List.map_cons, List.foldl_cons]
    rw [betterScore_score_none acc _ rfl]
    exact ih acc

theorem best_reset_score (pop : List Phenotype) :
    best (reset_score pop) = .error .emptyPopulation := by
  unfold best
  rw [foldl_betterScore_reset pop none]

theorem betterScore_some (q p : Phenotype) : ∃ r, betterScore (some q) p = some r := by
  unfold betterScore
  cases hs : p.score with
  | none => exact ⟨q, rfl⟩
  | some s =>
    by_cases h : q.score.getD 0 < s
    · exact ⟨p, by simp [h]⟩
    · exact ⟨q, by simp [h]⟩

theorem foldl_betterScore_isSome (l : List Phenotype) :
    ∀ q : Phenotype, (l.foldl betterScore (some q)).isSome := by
  induction l with
  | nil => intro q; rfl
  | cons p ps ih =>
    intro q
    rw [List.foldl_cons]
    rcases betterScore_some q p with ⟨r, hr⟩
    rw [hr]
    exact ih r

theorem best_isOk_of_scored (pop : List Phenotype) (hne : pop ≠ [])
    (hs : ∀ p ∈ pop, p.score.isSome) : ∃ p, best pop = .ok p := by
  match pop with
  | [] => exact absurd rfl hne
  | p :: ps =>
    have hp := hs p (List.mem_cons_self p ps)
    unfold best
    rw [List.foldl_cons]
    have h1 : betterScore none p = some p := by
      unfold betterScore
      cases hps : p.score with
      | none => rw [hps] at hp; simp at hp
      | some s => rfl
    rw [h1]
    rcases Option.isSome_iff_exists.mp (foldl_betterScore_isSome ps p) with ⟨r, hr⟩
    rw [hr]
    exact ⟨r, rfl⟩

theorem genAt_succ_shift (evalF next : List Phenotype → List Phenotype)
    (pop : List Phenotype) :
    ∀ i, genAt evalF next (next (evalF pop)) i = genAt evalF next pop (i + 1) := by
  intro i
  induction i with
  | zero => rfl
  | succ j ih => simp only [genAt, ih]

theorem runLoop_spec (evalF next : List Phenotype → List Phenotype) (maxScore : Int) :
    ∀ (G : Nat) (pop : List Phenotype),
      (runLoop evalF next maxScore G pop).1 ≤ G ∧
      (∀ i, i < (runLoop evalF next maxScore G pop).1 →
        meets (genAt evalF next pop i) maxScore = false) ∧
      ((runLoop evalF next maxScore G pop).1 < G →
        meets (genAt evalF next pop ((runLoop evalF next maxScore G pop).1)) maxScore = true) ∧
      (runLoop evalF next maxScore G pop).2 =
        genAt evalF next pop ((runLoop evalF next maxScore G pop).1) := by
  intro G
  induction G with
  | zero =>
    intro pop
    refine ⟨Nat.le_refl 0, ?_, ?_, rfl⟩
    · intro i hi; exact absurd hi (Nat.not_lt_zero i)
    · intro hcon; exact absurd hcon (lt_irrefl 0)
  | succ g ih =>
    intro pop
    cases hm : meets (evalF pop) maxScore with
    | true =>
      simp only [runLoop, hm, if_true]
      refine ⟨Nat.zero_le _, ?_, ?_, rfl⟩
      · intro i hi; exact absurd hi (Nat.not_lt_zero i)
      · intro _; exact hm
    | false =>
      simp only [runLoop, hm, Bool.false_eq_true, if_false]
      obtain ⟨h1, h2, h3, h4⟩ := ih (next (evalF pop))
      refine ⟨Nat.succ_le_succ h1, ?_, ?_, ?_⟩
      · intro i hi
        match i with
        | 0 => exact hm
        | j + 1 =>
          rw [← genAt_succ_shift evalF next pop j]
          exact h2 j (Nat.lt_of_succ_lt_succ hi)
      · intro hlt
        rw [← genAt_succ_shift evalF next pop _]
        exact h3 (Nat.lt_of_succ_lt_succ hlt)
      · rw [← genAt_succ_shift evalF next pop _]
        exact h4

theorem runLoop_maxGen_mono (evalF next : List Phenotype → List Phenotype)
    (hev : ∀ p, maxGenOf (evalF p) = maxGenOf p)
    (hnext : ∀ p, maxGenOf p ≤ maxGenOf (next p)) (S : Int) :
    ∀ (G : Nat) (pop : List Phenotype),
      maxGenOf pop ≤ maxGenOf (runLoop evalF next S G pop).2 := by
  intro G
  induction G with
  | zero =>
    intro pop
    simp only [runLoop]
    rw [hev]
  | succ g ih =>
    intro pop
    cases hm : meets (evalF pop) S with
    | true => simp only [runLoop, hm, if_true]; rw [hev]
    | false =>
      simp only [runLoop, hm, Bool.false_eq_true, if_false]
      calc maxGenOf pop = maxGenOf (evalF pop) := (hev pop).symm
        _ ≤ maxGenOf (next (evalF pop)) := hnext _
        _ ≤ _ := ih _

theorem sample_pedigree_valid : Pedigree samplePedigree := by
  have hped1 : Pedigree [founder1] :=
    Pedigree.founder 1 0 [⟨1, [1, 0, 1, 1]⟩] Pedigree.nil (by decide)
  have hped2 : Pedigree [founder2, founder1] :=
    Pedigree.founder 2 0 [⟨1, [0, 1, 0, 0]⟩] hped1 (by decide)
  have ha : founder1 ∈ [founder2, founder1] := by decide
  have hb : founder2 ∈ [founder2, founder1] := by decide
  have hfresh : ∀ q ∈ [founder2, founder1], q.id ≠ 3 := by decide
  exact Pedigree.offspring 3 1 [⟨1, [1, 0, 0, 0]⟩] hped2 ha hb hfresh

/-- C1: for every session and all bounds `G` and `S`, `run` executes at
most `G` generations; every generation before the stopping one has best
score below `S`; if the loop stops before exhausting `G` the stopping
generation's best score meets `S`; and the final population is the one of
the stopping generation — i.e. the loop stops at the first generation
whose best score meets `S` when that happens before `G` generations. -/
theorem run_termination_correct (evalF next : List Phenotype → List Phenotype)
    (G : Nat) (S : Int) (s : Session) :
    (runSession evalF next G S s).1.generations ≤ G ∧
    (∀ i, i < (runSession evalF next G S s).1.generations →
      meets (genAt evalF next s.pop i) S = false) ∧
    ((runSession evalF next G S s).1.generations < G →
      meets (genAt evalF next s.pop ((runSession evalF next G S s).1.generations)) S = true) ∧
    (runSession evalF next G S s).2.pop =
      genAt evalF next s.pop ((runSession evalF next G S s).1.generations) := by
  have h := runLoop_spec evalF next S G s.pop
  simpa [runSession] using h

/-- C1 witness: the concrete run of the sample session with bounds
`G = 10`, `S = 3` executes exactly two generation advances, within the
bound, and its trace facts follow from the theorem at that input. -/
theorem run_termination_correct_witness :
    (runSession scoreByGeneration selfBreed 10 3 sampleSession).1.generations ≤ 10 ∧
    ((runSession scoreByGeneration selfBreed 10 3 sampleSession).1.generations < 10 →
      meets (genAt scoreByGeneration selfBreed sampleSession.pop
        ((runSession scoreByGeneration selfBreed 10 3 sampleSession).1.generations)) 3 = true) ∧
    (runSession scoreByGeneration selfBreed 10 3 sampleSession).1.generations = 2 :=
  ⟨(run_termination_correct scoreByGeneration selfBreed 10 3 sampleSession).1,
   (run_termination_correct scoreByGeneration selfBreed 10 3 sampleSession).2.2.1,
   by decide⟩

/-- C2: in every population the pipeline constructors can build, each
member is a founder (empty parents, generation 1) or an offspring whose
generation is one more than the maximum of its parents' generations;
generation numbers strictly increase along parents edges; and the
ancestry graph has no cycles. -/
theorem pipeline_ancestry_dag (ps : List Phenotype) (h : Pedigree ps) :
    (∀ p ∈ ps, (p.parents = [] ∧ p.generation = 1) ∨
      ∃ a ∈ ps, ∃ b ∈ ps, p.parents = [a.id, b.id] ∧
        p.generation = 1 + max a.generation b.generation) ∧
    (∀ p ∈ ps, ∀ q ∈ ps, q.id ∈ p.parents → q.generation < p.generation) ∧
    (∀ p : Phenotype, ¬ Relation.TransGen (ParentOf ps) p p) :=
  ⟨pedigree_generation_formula h, pedigree_parent_gen_lt h, pedigree_acyclic h⟩

/-- C2 witness: the theorem applied to the concrete three-member
pedigree (two founders and one offspring). -/
theorem pipeline_ancestry_dag_witness :
    (∀ p ∈ samplePedigree, (p.parents = [] ∧ p.generation = 1) ∨
      ∃ a ∈ samplePedigree, ∃ b ∈ samplePedigree, p.parents = [a.id, b.id] ∧
        p.generation = 1 + max a.generation b.generation) ∧
    (∀ p ∈ samplePedigree, ∀ q ∈ samplePedigree,
      q.id ∈ p.parents → q.generation < p.generation) ∧
    (∀ p : Phenotype, ¬ Relation.TransGen (ParentOf samplePedigree) p p) :=
  pipeline_ancestry_dag samplePedigree sample_pedigree_valid

/-- C3: with the cache enabled, one evaluation pass starting from an
empty cache never sends the same genetic content to the user scoring
function twice (the call log is duplicate-free, so any two phenotypes
with identical content share at most one scoring call, keyed by content
and not by id), and evaluating the resulting fully scored population a
second time performs zero additional scoring calls and changes nothing. -/
theorem fitness_cache_idempotent (scoreFn : Content → Int) (pop : List Phenotype) :
    (evaluate scoreFn true pop ⟨[], []⟩).2.calls.Nodup ∧
    (∀ k : Content, ¬ List.Sublist [k, k] (evaluate scoreFn true pop ⟨[], []⟩).2.calls) ∧
    ∀ (b : Bool) (st : EvalState),
      evaluate scoreFn b (evaluate scoreFn true pop ⟨[], []⟩).1 st =
        ((evaluate scoreFn true pop ⟨[], []⟩).1, st) := by
  have hinv : CacheInv (evaluate scoreFn true pop ⟨[], []⟩).2 :=
    evaluate_cacheInv scoreFn pop ⟨[], []⟩
      ⟨List.nodup_nil, by intro k hk; simp at hk⟩
  refine ⟨hinv.1, ?_, ?_⟩
  · exact fun k => List.nodup_iff_sublist.mp hinv.1 k
  · intro b st
    exact evaluate_scored_id scoreFn b _ st (evaluate_all_scored scoreFn true pop ⟨[], []⟩)

/-- C4 counterexample: on the sample session, the first `run` call
reports 2 executed generations, and the subsequent `run` call on the very
session state it left behind reports 1 — the execution's generation
counter restarts from zero at every `run` call instead of continuing
monotonically from the previous call's value (matching the
`[gen:0]: Start of evolutionary experiment execution` lines the source
notebooks log at the start of each call). -/
theorem run_counter_reset_counterexample :
    (runSession scoreByGeneration selfBreed 10 3 sampleSession).1.generations = 2 ∧
    (runSession scoreByGeneration selfBreed 10 4
      ((runSession scoreByGeneration selfBreed 10 3 sampleSession).2)).1.generations = 1 := by
  constructor
  · rfl
  · rfl

/-- C4 amended: a subsequent `run` call continues evolving the very
population the previous call left in the session, so ancestry and the
phenotypes' generation numbers keep accumulating across calls (the
largest generation present never decreases), while the statistics
counter of each call counts only that call's own cycles. -/
theorem run_reentrant_accumulates (evalF next : List Phenotype → List Phenotype)
    (hev : ∀ p, maxGenOf (evalF p) = maxGenOf p)
    (hnext : ∀ p, maxGenOf p ≤ maxGenOf (next p))
    (G1 G2 : Nat) (S1 S2 : Int) (s : Session) :
    maxGenOf s.pop ≤ maxGenOf ((runSession evalF next G1 S1 s).2).pop ∧
    maxGenOf ((runSession evalF next G1 S1 s).2).pop ≤
      maxGenOf ((runSession evalF next G2 S2 ((runSession evalF next G1 S1 s).2)).2).pop := by
  constructor
  · exact runLoop_maxGen_mono evalF next hev hnext S1 G1 s.pop
  · exact runLoop_maxGen_mono evalF next hev hnext S2 G2 _

/-- C4 witness: the amended theorem at identity evaluation and breeding
steps on the sample session. -/
theorem run_reentrant_accumulates_witness :
    maxGenOf sampleSession.pop ≤ maxGenOf ((runSession id id 1 0 sampleSession).2).pop ∧
    maxGenOf ((runSession id id 1 0 sampleSession).2).pop ≤
      maxGenOf ((runSession id id 2 0 ((runSession id id 1 0 sampleSession).2)).2).pop :=
  run_reentrant_accumulates id id (fun _ => rfl) (fun p => Nat.le_refl (maxGenOf p))
    1 2 0 0 sampleSession

/-- C5: `reset_score` clears every member's score and changes no other
field (id, experiment, created, parents, generation and chromosomes are
kept verbatim, position by position); after it, `best` fails with
`EmptyPopulation`; and once the population is re-evaluated, `best`
succeeds again. -/
theorem reset_score_frame (pop : List Phenotype) :
    (∀ i : Nat, (reset_score pop)[i]? = pop[i]?.map
      (fun p => { id := p.id, experiment := p.experiment, created := p.created,
                  parents := p.parents, generation := p.generation,
                  score := none, chromosomes := p.chromosomes })) ∧
    best (reset_score pop) = .error .emptyPopulation ∧
    (pop ≠ [] → ∀ scoreFn : Content → Int,
      ∃ p, best ((evaluate scoreFn true (reset_score pop) ⟨[], []⟩).1) = .ok p) := by
  refine ⟨?_, best_reset_score pop, ?_⟩
  · intro i
    simp [reset_score, List.getElem?_map]
  · intro hne scoreFn
    refine best_isOk_of_scored _ ?_ (evaluate_all_scored scoreFn true (reset_score pop) ⟨[], []⟩)
    apply evaluate_ne_nil
    simpa [reset_score] using hne

/-- C5 witness: the theorem at the concrete one-member scored
population, with the non-emptiness hypothesis discharged there. -/
theorem reset_score_frame_witness :
    best (reset_score sampleScoredPop) = .error .emptyPopulation ∧
    ∃ p, best ((evaluate (fun _ => 0) true (reset_score sampleScoredPop) ⟨[], []⟩).1) = .ok p :=
  ⟨(reset_score_frame sampleScoredPop).2.1,
   (reset_score_frame sampleScoredPop).2.2 (by decide) (fun _ => 0)⟩

/-- C6: mutation preserves chromosome length and ploidy, and both
offspring of a successful crossover have the common length of the two
(equal-length, equal-ploidy) inputs. -/
theorem chromosome_length_preservation :
    (∀ (flip : Nat → Bool) (c : Chromosome),
      (mutate flip c).loci.length = c.loci.length ∧ (mutate flip c).ploidy = c.ploidy) ∧
    ∀ (c d : Chromosome) (points : List Nat) (r : Chromosome × Chromosome),
      crossover c d points = .ok r →
      r.1.loci.length = c.loci.length ∧ r.2.loci.length = c.loci.length ∧
        c.loci.length = d.loci.length := by
  constructor
  · intro flip c
    exact ⟨by simp [mutate], rfl⟩
  · intro c d points r h
    unfold crossover at h
    by_cases hc : c.ploidy = d.ploidy ∧ c.loci.length = d.loci.length
    · rw [if_pos hc] at h
      cases h
      exact ⟨by simp, by simp, hc.2⟩
    · rw [if_neg hc] at h
      exact absurd h (by simp)

/-- C6 witness: the theorem evaluated at a concrete mutation and at the
concrete single-point crossover of the spec scenario. -/
theorem chromosome_length_preservation_witness :
    ((mutate (fun i => decide (i = 0)) ⟨1, [0, 1, 1]⟩).loci.length = 3 ∧
      (mutate (fun i => decide (i = 0)) ⟨1, [0, 1, 1]⟩).ploidy = 1) ∧
    ((⟨1, [1, 0, 0, 0]⟩ : Chromosome).loci.length =
        (⟨1, [1, 0, 1, 1]⟩ : Chromosome).loci.length ∧
      (⟨1, [0, 1, 1, 1]⟩ : Chromosome).loci.length =
        (⟨1, [1, 0, 1, 1]⟩ : Chromosome).loci.length ∧
      (⟨1, [1, 0, 1, 1]⟩ : Chromosome).loci.length =
        (⟨1, [0, 1, 0, 0]⟩ : Chromosome).loci.length) :=
  ⟨(chromosome_length_preservation).1 (fun i => decide (i = 0)) ⟨1, [0, 1, 1]⟩,
   (chromosome_length_preservation).2 ⟨1, [1, 0, 1, 1]⟩ ⟨1, [0, 1, 0, 0]⟩ [2]
     (⟨1, [1, 0, 0, 0]⟩, ⟨1, [0, 1, 1, 1]⟩) rfl⟩

/-- C7: single-point crossover of `[1,0,1,1]` and `[0,1,0,0]` at cut
index 2 yields exactly the offspring `[1,0,0,0]` and `[0,1,1,1]`, and
crossover fails with `IncompatibleChromosome` whenever the lengths or the
ploidy of the two inputs differ. -/
theorem crossover_single_point_scenario :
    crossover ⟨1, [1, 0, 1, 1]⟩ ⟨1, [0, 1, 0, 0]⟩ [2] =
      .ok (⟨1, [1, 0, 0, 0]⟩, ⟨1, [0, 1, 1, 1]⟩) ∧
    ∀ (c d : Chromosome) (points : List Nat),
      c.loci.length ≠ d.loci.length ∨ c.ploidy ≠ d.ploidy →
      crossover c d points = .error .incompatibleChromosome := by
  refine ⟨rfl, ?_⟩
  intro c d points h
  unfold crossover
  rw [if_neg]
  rintro ⟨h1, h2⟩
  rcases h with h | h
  · exact h h2
  · exact h h1

/-- C7 witness: the incompatibility branch of the theorem at a concrete
length mismatch. -/
theorem crossover_single_point_scenario_witness :
    crossover ⟨1, [1, 0]⟩ ⟨1, [1]⟩ [1] = .error .incompatibleChromosome :=
  (crossover_single_point_scenario).2 ⟨1, [1, 0]⟩ ⟨1, [1]⟩ [1] (Or.inl (by decide))

/-- C8: Standard algorithm construction validates its configuration
immediately: it succeeds exactly when `indpb` and `mutpb` lie in the
closed unit interval and `survival_rate` in the half-open unit interval,
and fails with `InvalidConfiguration` for any value outside these
ranges. -/
theorem algorithm_config_validation (indpb mutpb survival_rate : Rat) :
    ((∃ a, mkStandard indpb mutpb survival_rate = .ok a) ↔
      (0 ≤ indpb ∧ indpb ≤ 1 ∧ 0 ≤ mutpb ∧ mutpb ≤ 1 ∧
        0 < survival_rate ∧ survival_rate ≤ 1)) ∧
    (¬ (0 ≤ indpb ∧ indpb ≤ 1 ∧ 0 ≤ mutpb ∧ mutpb ≤ 1 ∧
        0 < survival_rate ∧ survival_rate ≤ 1) →
      mkStandard indpb mutpb survival_rate = .error .invalidConfiguration) := by
  unfold mkStandard
  by_cases h : 0 ≤ indpb ∧ indpb ≤ 1 ∧ 0 ≤ mutpb ∧ mutpb ≤ 1 ∧
      0 < survival_rate ∧ survival_rate ≤ 1
  · rw [if_pos h]
    exact ⟨⟨fun _ => h, fun _ => ⟨_, rfl⟩⟩, fun hn => absurd h hn⟩
  · rw [if_neg h]
    refine ⟨⟨?_, fun hh => absurd hh h⟩, fun _ => rfl⟩
    rintro ⟨a, ha⟩
    exact absurd ha (by simp)

/-- C8 witness: the theorem at an in-range configuration (accepted) and
at a zero survival rate (rejected with `InvalidConfiguration`). -/
theorem algorithm_config_validation_witness :
    (∃ a, mkStandard 0 0 1 = .ok a) ∧
    mkStandard (1 / 2) (1 / 2) 0 = .error .invalidConfiguration :=
  ⟨(algorithm_config_validation 0 0 1).1.mpr (by norm_num),
   (algorithm_config_validation (1 / 2) (1 / 2) 0).2 (by norm_num)⟩

/-- C9 counterexample: the scheduler option does not accept the value
`threaded` (nor `multiprocess`); the accepted spellings, per the note in
src/README.ipynb, are `synchronous`, `threads` and `processes`. -/
theorem scheduler_values_counterexample :
    parseScheduler "threaded" = none ∧
    parseScheduler "multiprocess" = none ∧
    parseScheduler "synchronous" = some .synchronous ∧
    parseScheduler "threads" = some .threads ∧
    parseScheduler "processes" = some .processes := by
  refine ⟨?_, ?_, ?_, ?_, ?_⟩ <;> decide

/-- C9 amended: the fitness evaluator's scheduler configuration accepts
exactly the values `synchronous`, `threads` and `processes`, selecting
sequential execution, worker threads, or worker processes respectively. -/
theorem scheduler_values_accepted (s : String) :
    (parseScheduler s).isSome = true ↔
      (s = "synchronous" ∨ s = "threads" ∨ s = "processes") := by
  unfold parseScheduler
  split_ifs with h1 h2 h3
  · simp [h1]
  · simp [h1, h2]
  · simp [h1, h2, h3]
  · simp [h1, h2, h3]

/-- C10: constructing a Standard algorithm without an explicit
`survival_rate` argument yields a configuration whose survival rate is
the template default 0.4 = 2/5. -/
theorem standard_default_survival_rate (indpb mutpb : Rat)
    (h1 : 0 ≤ indpb) (h2 : indpb ≤ 1) (h3 : 0 ≤ mutpb) (h4 : mutpb ≤ 1) :
    ∃ a, mkStandardOpt indpb mutpb none = .ok a ∧ a.survival_rate = 2 / 5 := by
  refine ⟨⟨indpb, mutpb, 2 / 5⟩, ?_, rfl⟩
  have hd : (Option.getD none standardSurvivalRateDefault) = (2 / 5 : Rat) := rfl
  unfold mkStandardOpt mkStandard
  rw [hd, if_pos ⟨h1, h2, h3, h4, by norm_num, by norm_num⟩]

/-- C10 witness: the theorem at the concrete configuration with both
probabilities zero. -/
theorem standard_default_survival_rate_witness :
    ∃ a, mkStandardOpt 0 0 none = .ok a ∧ a.survival_rate = 2 / 5 :=
  standard_default_survival_rate 0 0 (by norm_num) (by norm_num) (by norm_num) (by norm_num)
